import Mathlib

/-!
Verification of the OBS background-filter plugin.

Shallow embedding of the security utilities (src/security-utils.cpp), the
model loading and mask postprocessing (src/model-inference.cpp) and the
settings/video paths (src/background-filter.cpp), together with proofs of
the specification claims about them.

Paths are modelled as lists of components (each component a list of
characters); the filesystem is a partial map from resolved absolute paths
to file metadata.  The std::filesystem operations are modelled lexically
over a symlink-free filesystem: fs::absolute prepends the current working
directory, weak canonicalization removes "." and resolves ".." lexically,
and fs::relative(p, base) produces the component-wise relative path.
-/

/-- A path component, e.g. the characters of "data" or "model.onnx". -/
abbrev PathComp := List Char

/-- A resolved absolute path as a list of components (the root is `[]`). -/
abbrev AbsPath := List PathComp

/-- Substring test for the traversal token "..": true iff two consecutive
dots occur in the character list.  This models
`std::string::find("..") != npos` from the source. -/
def hasDD : List Char → Bool
  | c1 :: c2 :: rest => (c1 = '.' && c2 = '.') || hasDD (c2 :: rest)
  | _ => false

/-- Split a character list on '/', keeping empty groups (the
std::filesystem decomposition of a path string into components). -/
def splitOnSlash : List Char → List (List Char)
  | [] => [[]]
  | c :: rest =>
      if c = '/' then [] :: splitOnSlash rest
      else
        match splitOnSlash rest with
        | [] => [[c]]
        | g :: gs => (c :: g) :: gs

/-- The non-empty components of a path string. -/
def pathComponents (s : String) : List PathComp :=
  (splitOnSlash s.data).filter (fun g => g ≠ [])

/-- True iff the string denotes an absolute path (leading '/'). -/
def isAbsolutePath (s : String) : Bool :=
  match s.data with
  | '/' :: _ => true
  | _ => false

/-- One step of lexical path normalization: "." is dropped, ".." removes
the last component (a no-op at the root, as the kernel does), anything
else is appended. -/
def normStep (acc : List PathComp) (c : PathComp) : List PathComp :=
  if c = ['.'] then acc
  else if c = ['.', '.'] then acc.dropLast
  else acc ++ [c]

/-- Lexical normalization of a component list. -/
def normalizeComps (cs : List PathComp) : List PathComp :=
  cs.foldl normStep []

/-- fs::absolute relative to the current working directory `cwd`, followed
by the canonicalization that fs::relative / the kernel perform on a
symlink-free filesystem. -/
def resolvePath (cwd : AbsPath) (s : String) : AbsPath :=
  if isAbsolutePath s then normalizeComps (pathComponents s)
  else normalizeComps (cwd ++ pathComponents s)

/-- Length of the longest common prefix of two component lists. -/
def commonPrefixLen : List PathComp → List PathComp → Nat
  | a :: as, b :: bs => if a = b then commonPrefixLen as bs + 1 else 0
  | _, _ => 0

/-- fs::relative(p, base) on two canonical absolute paths: "." when the
paths are equal, otherwise one ".." per base component past the common
prefix followed by the remaining components of `p`.  (An empty result,
which std::filesystem reserves for root mismatches, cannot arise here.) -/
def relativeComps (p base : AbsPath) : List PathComp :=
  if p = base then [['.']]
  else
    List.replicate (base.length - commonPrefixLen p base) ['.', '.']
      ++ p.drop (commonPrefixLen p base)

/-- The source checks `rel.string().find("..") == npos` on the joined
relative path.  Since the separator '/' can never combine with component
characters to form "..", the substring occurs in the joined string iff it
occurs inside some component. -/
def compsHaveDD (cs : List PathComp) : Bool :=
  cs.any (fun c => hasDD c)

/-- Security::ValidatePath from src/security-utils.cpp: reject any path
whose string contains "..", then accept iff the absolute path is relative
to some allowed base directory without the relative path being empty or
containing "..". -/
def ValidatePath (cwd : AbsPath) (filepath : String)
    (allowed_base_paths : List String) : Bool :=
  if hasDD filepath.data then false
  else
    allowed_base_paths.any (fun allowed_base =>
      let rel := relativeComps (resolvePath cwd filepath)
                               (resolvePath cwd allowed_base)
      !rel.isEmpty && !compsHaveDD rel)

/-- Metadata of one filesystem entry: whether it is a regular file, its
size in bytes, and the lowercase hex SHA-256 digest a streaming read of
its contents produces. -/
structure FileInfo where
  isRegular : Bool
  size : Nat
  hash : String
deriving DecidableEq

/-- A symlink-free filesystem: a partial map from resolved absolute paths
to entry metadata. -/
def FileSystem := AbsPath → Option FileInfo

/-- fs::exists. -/
def fsExists (fs : FileSystem) (p : AbsPath) : Bool :=
  (fs p).isSome

/-- fs::is_regular_file. -/
def isRegularFile (fs : FileSystem) (p : AbsPath) : Bool :=
  ((fs p).map FileInfo.isRegular).getD false

/-- fs::file_size (only meaningful on existing entries; the source only
queries it after the existence check). -/
def fileSize (fs : FileSystem) (p : AbsPath) : Nat :=
  ((fs p).map FileInfo.size).getD 0

/-- ASCII ::tolower on one character, as std::transform applies it. -/
def toLowerChar (c : Char) : Char :=
  if 'A' ≤ c ∧ c ≤ 'Z' then Char.ofNat (c.toNat + 32) else c

/-- Lowercasing of a string, byte by byte. -/
def strToLower (s : String) : String :=
  ⟨s.data.map toLowerChar⟩

/-- Security::CalculateFileSHA256: the hex digest of the entry's contents,
or "" when the stream cannot be opened (no entry). -/
def CalculateFileSHA256 (fs : FileSystem) (cwd : AbsPath)
    (filepath : String) : String :=
  match fs (resolvePath cwd filepath) with
  | some info => info.hash
  | none => ""

/-- Security::VerifyFileChecksum: trivially true on an empty expected
hash, false when hashing fails, otherwise a case-insensitive comparison
of the two hex digests. -/
def VerifyFileChecksum (fs : FileSystem) (cwd : AbsPath)
    (filepath expected_hash : String) : Bool :=
  if expected_hash = "" then true
  else
    let calculated_hash := CalculateFileSHA256 fs cwd filepath
    if calculated_hash = "" then false
    else strToLower expected_hash = strToLower calculated_hash

/-- The source's 500 MiB size cap: 500 * 1024 * 1024 bytes. -/
def maxModelSize : Nat := 500 * 1024 * 1024

/-- Security::VerifyModelIntegrity: existence, regular-file and size
checks, then the optional checksum.  The ".onnx" extension check in the
source is a warning only (explicitly non-fatal) and does not affect the
result. -/
def VerifyModelIntegrity (fs : FileSystem) (cwd : AbsPath)
    (model_path expected_hash : String) : Bool :=
  if !fsExists fs (resolvePath cwd model_path) then false
  else if !isRegularFile fs (resolvePath cwd model_path) then false
  else if fileSize fs (resolvePath cwd model_path) > maxModelSize then false
  else if expected_hash ≠ "" then
    VerifyFileChecksum fs cwd model_path expected_hash
  else true

/-- The authorization gate of the spec: ValidatePath followed by
VerifyModelIntegrity, exactly as ModelInference::LoadModel sequences the
two calls. `true` is Authorized, `false` is Rejected. -/
def authorize (fs : FileSystem) (cwd : AbsPath) (model_path : String)
    (allowed : List String) (expected_hash : String) : Bool :=
  ValidatePath cwd model_path allowed &&
    VerifyModelIntegrity fs cwd model_path expected_hash

/-- The allow-list built inside ModelInference::LoadModel: two
HOME-derived user directories (when HOME is set) and two system
directories. -/
def allowedModelDirs (home : Option String) : List String :=
  (match home with
   | some h =>
       [h ++ "/.config/obs-studio/plugins/obs-background-filter/data/models",
        h ++ "/.config/obs-studio/plugins/obs-background-filter/data"]
   | none => []) ++
  ["/usr/share/obs/obs-plugins/obs-background-filter/models",
   "/usr/local/share/obs/obs-plugins/obs-background-filter/models"]

/-- ModelInference::LoadModel: validate the path against the built-in
allow-list, verify integrity with an empty expected hash, then hand the
artifact to ONNX Runtime (session construction and shape discovery are
external; `sessionOk` records whether they succeed). -/
def LoadModel (fs : FileSystem) (cwd : AbsPath) (home : Option String)
    (sessionOk : Bool) (model_path : String) : Bool :=
  if !ValidatePath cwd model_path (allowedModelDirs home) then false
  else if !VerifyModelIntegrity fs cwd model_path "" then false
  else sessionOk

/-- Replace the stored content digest of one entry, leaving existence,
regularity and size untouched.  Used to state that loading never looks at
file contents. -/
def updateHash (fs : FileSystem) (q : AbsPath) (h : String) : FileSystem :=
  fun r => if r = q then (fs r).map (fun i => { i with hash := h }) else fs r

/-- Security::ValidateConfigValues: threshold in [0,1], blur amount in
[1,50], edge smoothing in [1,10].  float/int arguments are modelled as
ℚ/ℤ (every finite float value is rational and the comparisons against
0, 1, 50, 10 are exact). -/
def ValidateConfigValues (threshold : ℚ) (blur_amount edge_smoothing : Int) : Bool :=
  if threshold < 0 || threshold > 1 then false
  else if blur_amount < 1 || blur_amount > 50 then false
  else if edge_smoothing < 1 || edge_smoothing > 10 then false
  else true

/-- The settings read by background_filter_update (obs_data_t fields). -/
structure FilterSettings where
  threshold : ℚ
  blur_amount : Int
  edge_smoothing : Int
  blur_background : Bool
  replace_background : Bool
  replacement_color : Nat
  smooth_edges : Bool
deriving DecidableEq

/-- The per-instance tunables stored in background_filter_data. -/
structure FilterConfigState where
  threshold : ℚ
  blur_background : Bool
  blur_amount : Int
  replace_background : Bool
  replacement_color : Nat
  smooth_edges : Bool
  edge_smoothing : Int
deriving DecidableEq

/-- background_filter_update from src/background-filter.cpp: read the
settings, and when validation fails substitute the safe default triple
(0.5, 15, 3) before storing; the remaining fields are copied from the
settings either way.  (The source substitutes into the three locals and
then assigns all fields once; the two branches below spell out the same
two outcomes.) -/
def background_filter_update (s : FilterSettings) : FilterConfigState :=
  let threshold := s.threshold
  let blur_amount := s.blur_amount
  let edge_smoothing := s.edge_smoothing
  if !ValidateConfigValues threshold blur_amount edge_smoothing then
    { threshold := 1/2
      blur_background := s.blur_background
      blur_amount := 15
      replace_background := s.replace_background
      replacement_color := s.replacement_color
      smooth_edges := s.smooth_edges
      edge_smoothing := 3 }
  else
    { threshold := threshold
      blur_background := s.blur_background
      blur_amount := blur_amount
      replace_background := s.replace_background
      replacement_color := s.replacement_color
      smooth_edges := s.smooth_edges
      edge_smoothing := edge_smoothing }

/-- updateHash does not change existence. -/
theorem updateHash_fsExists (fs : FileSystem) (q : AbsPath) (h : String)
    (p : AbsPath) : fsExists (updateHash fs q h) p = fsExists fs p := by
  unfold fsExists updateHash
  by_cases hpq : p = q <;> simp [hpq] <;> cases fs q <;> simp

/-- updateHash does not change regularity. -/
theorem updateHash_isRegularFile (fs : FileSystem) (q : AbsPath) (h : String)
    (p : AbsPath) : isRegularFile (updateHash fs q h) p = isRegularFile fs p := by
  unfold isRegularFile updateHash
  by_cases hpq : p = q <;> simp [hpq] <;> cases fs q <;> simp

/-- updateHash does not change sizes. -/
theorem updateHash_fileSize (fs : FileSystem) (q : AbsPath) (h : String)
    (p : AbsPath) : fileSize (updateHash fs q h) p = fileSize fs p := by
  unfold fileSize updateHash
  by_cases hpq : p = q <;> simp [hpq] <;> cases fs q <;> simp

/-- Claim C2: a path whose string contains the traversal token ".." is
rejected by ValidatePath for every allow-list and working directory, i.e.
before (independently of) any containment check. -/
theorem validatePath_rejects_traversal (cwd : AbsPath) (filepath : String)
    (allowed : List String) (h : hasDD filepath.data = true) :
    ValidatePath cwd filepath allowed = false := by
  simp [ValidatePath, h]

/-- Witness for C2 at a concrete input whose resolved path lies inside the
allowed base directory: the traversal token alone forces rejection. -/
theorem validatePath_rejects_traversal_witness :
    hasDD "/data/../data/m.onnx".data = true ∧
    resolvePath [] "/data" <+: resolvePath [] "/data/../data/m.onnx" ∧
    ValidatePath [] "/data/../data/m.onnx" ["/data"] = false :=
  ⟨by decide, by decide,
   validatePath_rejects_traversal [] "/data/../data/m.onnx" ["/data"] (by decide)⟩

/-- Claim C3: an artifact above the 500 MiB cap is rejected by
VerifyModelIntegrity for every expected hash (in particular a matching
one): the size check precedes and preempts any checksum computation. -/
theorem verifyModelIntegrity_rejects_oversize (fs : FileSystem) (cwd : AbsPath)
    (model_path expected_hash : String)
    (h : fileSize fs (resolvePath cwd model_path) > maxModelSize) :
    VerifyModelIntegrity fs cwd model_path expected_hash = false := by
  unfold VerifyModelIntegrity
  cases hex : fsExists fs (resolvePath cwd model_path)
  · simp
  · cases hreg : isRegularFile fs (resolvePath cwd model_path) <;> simp [h]

/-- Example filesystem for the C3 witness: one regular file, one byte over
the cap, whose stored digest matches the expected hash case-insensitively. -/
def exFSOversize : FileSystem := fun p =>
  if p = ["data".data, "big.onnx".data] then
    some { isRegular := true, size := 500 * 1024 * 1024 + 1, hash := "ab12" }
  else none

/-- Witness for C3: the oversized artifact is rejected even though its
digest matches the expected hash. -/
theorem verifyModelIntegrity_rejects_oversize_witness :
    fileSize exFSOversize (resolvePath [] "/data/big.onnx") > maxModelSize ∧
    strToLower "AB12" = strToLower
      (CalculateFileSHA256 exFSOversize [] "/data/big.onnx") ∧
    VerifyModelIntegrity exFSOversize [] "/data/big.onnx" "AB12" = false :=
  ⟨by decide, by decide,
   verifyModelIntegrity_rejects_oversize exFSOversize [] "/data/big.onnx" "AB12"
     (by decide)⟩

/-- Claim C10: LoadModel calls the integrity check with an empty expected
hash; an empty expected hash makes checksum verification trivially true;
the result of loading never depends on file contents (replacing the
stored digest of any entry changes nothing); and loading succeeds exactly
when the path is allowed, the artifact exists, is regular,
fits the size cap, and the runtime session comes up. -/
theorem loadModel_skips_hash_verification (fs : FileSystem) (cwd : AbsPath)
    (home : Option String) (sessionOk : Bool) (model_path : String)
    (q : AbsPath) (h : String) :
    VerifyFileChecksum fs cwd model_path "" = true ∧
    (VerifyModelIntegrity fs cwd model_path "" = true ↔
      (fsExists fs (resolvePath cwd model_path) = true ∧
       isRegularFile fs (resolvePath cwd model_path) = true ∧
       fileSize fs (resolvePath cwd model_path) ≤ maxModelSize)) ∧
    LoadModel (updateHash fs q h) cwd home sessionOk model_path =
      LoadModel fs cwd home sessionOk model_path ∧
    (LoadModel fs cwd home sessionOk model_path = true ↔
      (ValidatePath cwd model_path (allowedModelDirs home) = true ∧
       VerifyModelIntegrity fs cwd model_path "" = true ∧
       sessionOk = true)) := by
  refine ⟨by simp [VerifyFileChecksum], ?_, ?_, ?_⟩
  · unfold VerifyModelIntegrity
    cases hex : fsExists fs (resolvePath cwd model_path) <;>
      cases hreg : isRegularFile fs (resolvePath cwd model_path) <;>
        simp [Nat.not_lt, Nat.lt_iff_add_one_le] <;> omega
  · unfold LoadModel VerifyModelIntegrity
    rw [updateHash_fsExists, updateHash_isRegularFile, updateHash_fileSize]
    simp
  · unfold LoadModel
    cases hv : ValidatePath cwd model_path (allowedModelDirs home) <;>
      cases hi : VerifyModelIntegrity fs cwd model_path "" <;> simp

/-- Claim C4: ValidateConfigValues accepts exactly the triples with
threshold in [0,1], blur amount in [1,50] and edge smoothing in [1,10];
whenever it rejects, the settings-update path stores exactly the safe
default triple (0.5, 15, 3) while still applying the remaining settings
(validation failure is never fatal). -/
theorem validateConfig_defaults (s : FilterSettings) :
    (ValidateConfigValues s.threshold s.blur_amount s.edge_smoothing = true ↔
      (0 ≤ s.threshold ∧ s.threshold ≤ 1 ∧ 1 ≤ s.blur_amount ∧
       s.blur_amount ≤ 50 ∧ 1 ≤ s.edge_smoothing ∧ s.edge_smoothing ≤ 10)) ∧
    (ValidateConfigValues s.threshold s.blur_amount s.edge_smoothing = false →
      background_filter_update s =
        { threshold := 1/2
          blur_background := s.blur_background
          blur_amount := 15
          replace_background := s.replace_background
          replacement_color := s.replacement_color
          smooth_edges := s.smooth_edges
          edge_smoothing := 3 }) := by
  constructor
  · unfold ValidateConfigValues
    split_ifs with h1 h2 h3
    · simp only [Bool.or_eq_true, decide_eq_true_eq] at h1
      refine ⟨fun h => absurd h (by simp), ?_⟩
      rintro ⟨ha, hb, -, -, -, -⟩
      exfalso; rcases h1 with h | h <;> linarith
    · simp only [Bool.or_eq_true, decide_eq_true_eq] at h2
      refine ⟨fun h => absurd h (by simp), ?_⟩
      rintro ⟨-, -, hc, hd, -, -⟩
      exfalso; rcases h2 with h | h <;> linarith
    · simp only [Bool.or_eq_true, decide_eq_true_eq] at h3
      refine ⟨fun h => absurd h (by simp), ?_⟩
      rintro ⟨-, -, -, -, he, hf⟩
      exfalso; rcases h3 with h | h <;> linarith
    · simp only [Bool.or_eq_true, decide_eq_true_eq, not_or, not_lt] at h1 h2 h3
      exact ⟨fun _ => ⟨h1.1, h1.2, h2.1, h2.2, h3.1, h3.2⟩, fun _ => rfl⟩
  · intro hfail
    unfold background_filter_update
    simp [hfail]

/-- An out-of-range settings snapshot (threshold 2) for the C4 witness. -/
def exSettingsBad : FilterSettings :=
  { threshold := 2, blur_amount := 15, edge_smoothing := 3,
    blur_background := false, replace_background := true,
    replacement_color := 0xFF00FF00, smooth_edges := true }

/-- Witness for C4: validation rejects threshold 2 and the update path
stores the safe default triple while keeping the other settings. -/
theorem validateConfig_defaults_witness :
    ValidateConfigValues exSettingsBad.threshold exSettingsBad.blur_amount
      exSettingsBad.edge_smoothing = false ∧
    background_filter_update exSettingsBad =
      { threshold := 1/2
        blur_background := false
        blur_amount := 15
        replace_background := true
        replacement_color := 0xFF00FF00
        smooth_edges := true
        edge_smoothing := 3 } :=
  ⟨by decide, (validateConfig_defaults exSettingsBad).2 (by decide)⟩

/-- A ".." occurrence survives prepending a character. -/
theorem hasDD_cons (c : Char) (l : List Char) (h : hasDD l = true) :
    hasDD (c :: l) = true := by
  cases l with
  | nil => simp [hasDD] at h
  | cons d l' => simp [hasDD, h]

/-- A ".." occurrence survives appending on the right. -/
theorem hasDD_append_left (a t : List Char) (h : hasDD a = true) :
    hasDD (a ++ t) = true := by
  induction a with
  | nil => simp [hasDD] at h
  | cons c a' ih =>
    cases a' with
    | nil => simp [hasDD] at h
    | cons d a'' =>
      simp only [hasDD, Bool.or_eq_true] at h
      rcases h with h | h
      · simp [List.cons_append, hasDD, h]
      · have hrec := ih h
        simp only [List.cons_append] at hrec ⊢
        simp [hasDD, hrec]

/-- splitOnSlash never returns the empty list of groups. -/
theorem splitOnSlash_ne_nil (cs : List Char) : splitOnSlash cs ≠ [] := by
  cases cs with
  | nil => simp [splitOnSlash]
  | cons c rest =>
    simp only [splitOnSlash]
    split
    · simp
    · split <;> simp

/-- The first group produced by splitOnSlash is an initial segment of the
input. -/
theorem splitOnSlash_head_le (cs : List Char) (g : List Char)
    (gs : List (List Char)) (h : splitOnSlash cs = g :: gs) : g <+: cs := by
  induction cs generalizing g gs with
  | nil =>
    simp only [splitOnSlash, List.cons.injEq] at h
    rw [← h.1]
  | cons c rest ih =>
    simp only [splitOnSlash] at h
    by_cases hc : c = '/'
    · rw [if_pos hc] at h
      injection h with h1 h2
      rw [← h1]
      exact List.nil_prefix
    · rw [if_neg hc] at h
      rcases hsp : splitOnSlash rest with _ | ⟨g0, gs0⟩
      · exact absurd hsp (splitOnSlash_ne_nil rest)
      · rw [hsp] at h
        injection h with h1 h2
        obtain ⟨t, ht⟩ := ih g0 gs0 hsp
        exact ⟨t, by rw [← h1, List.cons_append, ht]⟩

/-- A ".." inside any group produced by splitOnSlash comes from a ".."
in the input string. -/
theorem hasDD_of_mem_splitOnSlash (cs : List Char) (g : List Char)
    (hmem : g ∈ splitOnSlash cs) (hdd : hasDD g = true) : hasDD cs = true := by
  induction cs generalizing g with
  | nil =>
    simp only [splitOnSlash, List.mem_singleton] at hmem
    subst hmem
    simp [hasDD] at hdd
  | cons c rest ih =>
    simp only [splitOnSlash] at hmem
    by_cases hc : c = '/'
    · rw [if_pos hc] at hmem
      rcases List.mem_cons.mp hmem with h | h
      · subst h; simp [hasDD] at hdd
      · exact hasDD_cons c rest (ih g h hdd)
    · rw [if_neg hc] at hmem
      rcases hsp : splitOnSlash rest with _ | ⟨g0, gs0⟩
      · exact absurd hsp (splitOnSlash_ne_nil rest)
      · rw [hsp] at hmem
        rcases List.mem_cons.mp hmem with h | h
        · subst h
          obtain ⟨t, ht⟩ := splitOnSlash_head_le rest g0 gs0 hsp
          have hall : hasDD ((c :: g0) ++ t) = true := hasDD_append_left _ t hdd
          rw [List.cons_append, ht] at hall
          exact hall
        · refine hasDD_cons c rest (ih g ?_ hdd)
          rw [hsp]
          exact List.mem_cons_of_mem g0 h

/-- Every component surviving one normalization fold was already in the
accumulator or in the input. -/
theorem mem_foldl_normStep (cs : List PathComp) (acc : List PathComp)
    (x : PathComp) (h : x ∈ cs.foldl normStep acc) : x ∈ acc ∨ x ∈ cs := by
  induction cs generalizing acc with
  | nil => exact Or.inl (by simpa using h)
  | cons c cs' ih =>
    rw [List.foldl_cons] at h
    rcases ih (normStep acc c) h with h1 | h1
    · unfold normStep at h1
      split_ifs at h1 with e1 e2
      · exact Or.inl h1
      · exact Or.inl (List.dropLast_subset acc h1)
      · rcases List.mem_append.mp h1 with h2 | h2
        · exact Or.inl h2
        · rw [List.mem_singleton] at h2
          rw [h2]
          exact Or.inr (List.mem_cons_self c cs')
    · exact Or.inr (List.mem_cons_of_mem c h1)

/-- Normalization only drops components, never invents one. -/
theorem mem_normalizeComps (cs : List PathComp) (x : PathComp)
    (h : x ∈ normalizeComps cs) : x ∈ cs := by
  rcases mem_foldl_normStep cs [] x h with h1 | h1
  · simp at h1
  · exact h1

/-- If neither the working directory's components nor the path string
contain "..", then no component of the resolved path does. -/
theorem resolvePath_comps_clean (cwd : AbsPath) (s : String)
    (hcwd : ∀ c ∈ cwd, hasDD c = false) (hs : hasDD s.data = false) :
    ∀ x ∈ resolvePath cwd s, hasDD x = false := by
  have hpc : ∀ g ∈ pathComponents s, hasDD g = false := by
    intro g hg
    unfold pathComponents at hg
    have hmem := (List.mem_filter.mp hg).1
    by_contra hdd
    rw [Bool.not_eq_false] at hdd
    exact absurd (hasDD_of_mem_splitOnSlash s.data g hmem hdd) (by simp [hs])
  intro x hx
  unfold resolvePath at hx
  split at hx
  · exact hpc x (mem_normalizeComps _ x hx)
  · rcases List.mem_append.mp (mem_normalizeComps _ x hx) with h | h
    · exact hcwd x h
    · exact hpc x h

/-- The common prefix is at most as long as the second list. -/
theorem commonPrefixLen_le (p b : List PathComp) :
    commonPrefixLen p b ≤ b.length := by
  induction p generalizing b with
  | nil => cases b <;> simp [commonPrefixLen]
  | cons a as ih =>
    cases b with
    | nil => simp [commonPrefixLen]
    | cons b0 bs =>
      unfold commonPrefixLen
      split_ifs with he
      · simpa using Nat.succ_le_succ (ih bs)
      · simp

/-- The common prefix exhausts the second list exactly when it is an
initial segment of the first. -/
theorem commonPrefixLen_eq_length_iff (p b : List PathComp) :
    commonPrefixLen p b = b.length ↔ b <+: p := by
  induction p generalizing b with
  | nil =>
    cases b with
    | nil => simp [commonPrefixLen]
    | cons b0 bs => simp [commonPrefixLen, List.prefix_nil]
  | cons a as ih =>
    cases b with
    | nil => simp [commonPrefixLen]
    | cons b0 bs =>
      unfold commonPrefixLen
      split_ifs with he
      · subst he
        simp only [List.length_cons, Nat.add_right_cancel_iff, ih bs,
          List.cons_prefix_cons, true_and]
      · constructor
        · intro h; exact absurd h (by simp)
        · intro h
          rw [List.cons_prefix_cons] at h
          exact absurd h.1.symm he

/-- Claim C1 (amended): a path resolving outside every allowed base
directory is always Rejected; a path whose string is free of the
traversal token "..", resolving inside some allowed base directory, whose
artifact exists, is a regular file, fits the size cap and carries a
matching optional hash, is Authorized.  (The "..-free" proviso is forced
by ValidatePath's first check, see authorize_containment_counterexample.) -/
theorem authorize_containment (fs : FileSystem) (cwd : AbsPath)
    (path : String) (allowed : List String) (expected : String)
    (hcwd : ∀ c ∈ cwd, hasDD c = false) :
    ((∀ b ∈ allowed, ¬ (resolvePath cwd b <+: resolvePath cwd path)) →
        authorize fs cwd path allowed expected = false) ∧
    (hasDD path.data = false →
      (∃ b ∈ allowed, resolvePath cwd b <+: resolvePath cwd path) →
      fsExists fs (resolvePath cwd path) = true →
      isRegularFile fs (resolvePath cwd path) = true →
      fileSize fs (resolvePath cwd path) ≤ maxModelSize →
      (expected = "" ∨
        (CalculateFileSHA256 fs cwd path ≠ "" ∧
         strToLower expected = strToLower (CalculateFileSHA256 fs cwd path))) →
      authorize fs cwd path allowed expected = true) := by
  constructor
  · intro hout
    have hval : ValidatePath cwd path allowed = false := by
      unfold ValidatePath
      cases hdd : hasDD path.data with
      | true => simp
      | false =>
        simp only [Bool.false_eq_true, if_false]
        rw [List.any_eq_false]
        intro b hb
        have hnp := hout b hb
        have hne : resolvePath cwd path ≠ resolvePath cwd b := by
          intro he
          exact hnp (by rw [he])
        have hlt : commonPrefixLen (resolvePath cwd path) (resolvePath cwd b)
            < (resolvePath cwd b).length :=
          lt_of_le_of_ne (commonPrefixLen_le _ _)
            (fun he => hnp ((commonPrefixLen_eq_length_iff _ _).mp he))
        obtain ⟨k, hk⟩ : ∃ k, (resolvePath cwd b).length -
            commonPrefixLen (resolvePath cwd path) (resolvePath cwd b) = k + 1 :=
          ⟨_, (Nat.succ_pred_eq_of_pos (Nat.sub_pos_of_lt hlt)).symm⟩
        simp only [relativeComps, if_neg hne, hk, List.replicate_succ]
        have hd : compsHaveDD (['.', '.'] ::
            (List.replicate k ['.', '.'] ++
              (resolvePath cwd path).drop
                (commonPrefixLen (resolvePath cwd path) (resolvePath cwd b))))
            = true := by
          unfold compsHaveDD
          simp [hasDD]
        simp [hd]
    simp [authorize, hval]
  · rintro hdd ⟨b, hb, hpre⟩ hex hreg hsize hhash
    have hval : ValidatePath cwd path allowed = true := by
      unfold ValidatePath
      rw [if_neg (by simp [hdd])]
      rw [List.any_eq_true]
      refine ⟨b, hb, ?_⟩
      by_cases heq : resolvePath cwd path = resolvePath cwd b
      · simp only [relativeComps, if_pos heq]
        decide
      · simp only [relativeComps, if_neg heq]
        have hn : commonPrefixLen (resolvePath cwd path) (resolvePath cwd b)
            = (resolvePath cwd b).length :=
          (commonPrefixLen_eq_length_iff _ _).mpr hpre
        rw [hn, Nat.sub_self]
        simp only [List.replicate, List.nil_append]
        have hlen : (resolvePath cwd b).length < (resolvePath cwd path).length := by
          rcases Nat.lt_or_ge (resolvePath cwd b).length
              (resolvePath cwd path).length with h | h
          · exact h
          · exact absurd (hpre.eq_of_length (le_antisymm hpre.length_le h)).symm heq
        have hne2 : (resolvePath cwd path).drop (resolvePath cwd b).length ≠ [] := by
          intro h0
          have hl := congrArg List.length h0
          rw [List.length_drop] at hl
          simp at hl
          omega
        have hclean : compsHaveDD
            ((resolvePath cwd path).drop (resolvePath cwd b).length) = false := by
          unfold compsHaveDD
          rw [List.any_eq_false]
          intro x hx
          have hxP : x ∈ resolvePath cwd path := List.drop_subset _ _ hx
          simp [resolvePath_comps_clean cwd path hcwd hdd x hxP]
        simp [hne2, hclean]
    have hint : VerifyModelIntegrity fs cwd path expected = true := by
      unfold VerifyModelIntegrity
      rcases hhash with h | ⟨hne, hlow⟩
      · subst h
        simp [hex, hreg, Nat.not_lt.mpr hsize]
      · by_cases hemp : expected = ""
        · simp [hex, hreg, Nat.not_lt.mpr hsize, hemp]
        · simp [hex, hreg, Nat.not_lt.mpr hsize, hemp, VerifyFileChecksum, hne, hlow]
    simp [authorize, hval, hint]

/-- Filesystem with a single small regular file whose name contains "..",
sitting inside the allowed directory /data. -/
def exFSDotName : FileSystem := fun p =>
  if p = ["data".data, "model..onnx".data] then
    some { isRegular := true, size := 1000, hash := "ab" }
  else none

/-- Counterexample to C1 as stated: /data/model..onnx resolves inside the
allowed base /data and passes every integrity check (with the optional
hash absent), yet authorize rejects it, because ValidatePath's first
check scans the raw path string for the substring "..". -/
theorem authorize_containment_counterexample :
    (resolvePath [] "/data" <+: resolvePath [] "/data/model..onnx") ∧
    VerifyModelIntegrity exFSDotName [] "/data/model..onnx" "" = true ∧
    authorize exFSDotName [] "/data/model..onnx" ["/data"] "" = false :=
  ⟨by decide, by decide, by decide⟩

/-- Filesystem with one well-named small regular file under /data, for
the C1 witness. -/
def exFSWit : FileSystem := fun p =>
  if p = ["data".data, "m.onnx".data] then
    some { isRegular := true, size := 1000, hash := "ab" }
  else none

/-- Witness for C1: a path outside the allow-list is Rejected, and a
clean path inside it whose artifact passes the checks is Authorized. -/
theorem authorize_containment_witness :
    authorize exFSWit [] "/etc/passwd" ["/data"] "" = false ∧
    authorize exFSWit [] "/data/m.onnx" ["/data"] "" = true :=
  ⟨(authorize_containment exFSWit [] "/etc/passwd" ["/data"] "" (by decide)).1
      (by decide),
   (authorize_containment exFSWit [] "/data/m.onnx" ["/data"] "" (by decide)).2
      (by decide) ⟨"/data", by decide, by decide⟩ (by decide) (by decide)
      (by decide) (Or.inl rfl)⟩

/-- The logistic transform applied per raw output value in
ModelInference::Postprocess: value = 1 / (1 + exp(-value)). -/
noncomputable def sigmoid (x : ℝ) : ℝ := 1 / (1 + Real.exp (-x))

/-- The threshold step of ModelInference::Postprocess:
mask value = value > threshold ? value : 0. -/
noncomputable def thresholdStep (threshold v : ℝ) : ℝ :=
  if v > threshold then v else 0

/-- One mask value produced from one raw logit: sigmoid then threshold. -/
noncomputable def postprocessValue (threshold x : ℝ) : ℝ :=
  thresholdStep threshold (sigmoid x)

/-- Clamp an integer source index into [0, n-1] (cv::resize border
handling). -/
def clampIdx (n : Nat) (i : Int) : Nat :=
  if i < 0 then 0 else min i.toNat (n - 1)

/-- cv::resize with INTER_LINEAR (as called in Postprocess): each output
pixel is the bilinear combination, with weights given by the fractional
parts of the source coordinates (dx+0.5)*srcW/dstW-0.5 and
(dy+0.5)*srcH/dstH-0.5, of the four clamped neighbouring source pixels. -/
noncomputable def resizeBilinear (src : Nat → Nat → ℝ)
    (srcH srcW dstH dstW : Nat) : Nat → Nat → ℝ := fun y x =>
  let fy : ℚ := ((y : ℚ) + 1/2) * srcH / dstH - 1/2
  let fx : ℚ := ((x : ℚ) + 1/2) * srcW / dstW - 1/2
  let wy : ℚ := Int.fract fy
  let wx : ℚ := Int.fract fx
  let y0 := clampIdx srcH ⌊fy⌋
  let y1 := clampIdx srcH (⌊fy⌋ + 1)
  let x0 := clampIdx srcW ⌊fx⌋
  let x1 := clampIdx srcW (⌊fx⌋ + 1)
  ((1 - wy) * (1 - wx) : ℚ) * src y0 x0 + ((1 - wy) * wx : ℚ) * src y0 x1 +
    (wy * (1 - wx) : ℚ) * src y1 x0 + ((wy * wx : ℚ) : ℝ) * src y1 x1

/-- A single-channel float matrix (cv::Mat of CV_32FC1) with its
dimensions. -/
structure MatF where
  rows : Nat
  cols : Nat
  val : Nat → Nat → ℝ

/-- ModelInference::Postprocess: build the output_height x output_width
mask by applying sigmoid and the threshold to every raw value (the
function `output_data y x` is the element at linear index
y*output_width+x of the raw tensor), then resize it with linear
interpolation to target_height x target_width. -/
noncomputable def Postprocess (output_data : Nat → Nat → ℝ)
    (output_height output_width target_height target_width : Nat)
    (threshold : ℝ) : MatF :=
  let mask : Nat → Nat → ℝ := fun y x =>
    thresholdStep threshold (sigmoid (output_data y x))
  { rows := target_height
    cols := target_width
    val := resizeBilinear mask output_height output_width
             target_height target_width }

/-- OpenCV's default BORDER_REFLECT_101 index mapping, clamped into range
for out-of-band offsets. -/
def borderReflect101 (n : Nat) (i : Int) : Nat :=
  if n ≤ 1 then 0
  else if i < 0 then min i.natAbs (n - 1)
  else if (n : Int) ≤ i then (n - 1) - min (i - ((n : Int) - 1)).natAbs (n - 1)
  else i.toNat

/-- cv::GaussianBlur with a ksize x ksize separable kernel: the output at
(y, x) is the kernel-weighted sum of the reflected source neighbourhood.
`g` is the 1-D kernel (OpenCV normalizes it to nonnegative weights of sum
1, which the range theorem takes as hypotheses). -/
noncomputable def gaussianBlur (g : Nat → ℝ) (ksize H W : Nat)
    (src : Nat → Nat → ℝ) : Nat → Nat → ℝ := fun y x =>
  ∑ i ∈ Finset.range ksize, ∑ j ∈ Finset.range ksize,
    g i * g j *
      src (borderReflect101 H ((y : Int) + (i : Int) - ((ksize : Int) - 1) / 2))
          (borderReflect101 W ((x : Int) + (j : Int) - ((ksize : Int) - 1) / 2))

/-- A 3-channel pixel in the internal BGR work format (channel 0 = B,
1 = G, 2 = R), each channel a real value. -/
abbrev Pixel := Fin 3 → ℝ

/-- A work image: a pixel for every coordinate pair. -/
abbrev ImageF := Nat → Nat → Pixel

/-- A mask image: one real alpha value per coordinate pair. -/
abbrev MaskF := Nat → Nat → ℝ

/-- The packed replacement colour unpacked into BGR channels as the
source does: B = color & 0xFF, G = (color >> 8) & 0xFF,
R = (color >> 16) & 0xFF. -/
def bgColorOf (replacement_color : Nat) : Pixel :=
  fun c => ((replacement_color >>> (8 * (c : Nat))) % 256 : Nat)

/-- The per-pixel alpha blend of background_filter_video:
output = original * alpha + background * (1 - alpha), per channel. -/
noncomputable def blend (fg bg : Pixel) (alpha : ℝ) : Pixel :=
  fun c => fg c * alpha + bg c * (1 - alpha)

/-- The compositing stage of background_filter_video: with
replace_background set, blend every pixel with the unpacked replacement
colour; otherwise with blur_background set, blend with the blurred copy
of the input frame; otherwise the cloned input is returned untouched. -/
noncomputable def compositeFrame (cfg : FilterConfigState)
    (input_frame blurred : ImageF) (mask : MaskF) : ImageF :=
  if cfg.replace_background then
    fun y x => blend (input_frame y x) (bgColorOf cfg.replacement_color) (mask y x)
  else if cfg.blur_background then
    fun y x => blend (input_frame y x) (blurred y x) (mask y x)
  else input_frame

/-- Claim C6: the threshold step is idempotent, pointwise and on whole
masks: thresholding an already-thresholded mask with the same threshold
yields the identical mask. -/
theorem thresholdStep_idempotent (t : ℝ) (mask : List ℝ) :
    (∀ v : ℝ, thresholdStep t (thresholdStep t v) = thresholdStep t v) ∧
    (mask.map (thresholdStep t)).map (thresholdStep t)
      = mask.map (thresholdStep t) := by
  have hpt : ∀ v : ℝ, thresholdStep t (thresholdStep t v) = thresholdStep t v := by
    intro v
    by_cases h : v > t
    · simp [thresholdStep, h]
    · simp [thresholdStep, h]
  refine ⟨hpt, ?_⟩
  rw [List.map_map]
  exact congrArg (fun f => mask.map f) (funext fun v => hpt v)

/-- Claim C7: compositing with an all-ones mask returns the input image
unchanged in every branch; with an all-zeros mask the replace branch
returns the unpacked replacement colour at every pixel and the blur
branch returns the blurred copy. -/
theorem composite_mask_extremes (cfg : FilterConfigState)
    (input_frame blurred : ImageF) (mask1 mask0 : MaskF)
    (h1 : ∀ y x, mask1 y x = 1) (h0 : ∀ y x, mask0 y x = 0) :
    compositeFrame cfg input_frame blurred mask1 = input_frame ∧
    (cfg.replace_background = true →
      compositeFrame cfg input_frame blurred mask0 =
        fun _ _ => bgColorOf cfg.replacement_color) ∧
    (cfg.replace_background = false → cfg.blur_background = true →
      compositeFrame cfg input_frame blurred mask0 = blurred) := by
  refine ⟨?_, ?_, ?_⟩
  · unfold compositeFrame
    split_ifs with hr hb
    · funext y x c
      simp [blend, h1]
    · funext y x c
      simp [blend, h1]
    · rfl
  · intro hr
    unfold compositeFrame
    rw [if_pos hr]
    funext y x c
    simp [blend, h0]
  · intro hr hb
    unfold compositeFrame
    rw [if_neg (by simp [hr]), if_pos hb]
    funext y x c
    simp [blend, h0]

/-- A constant grey test image for the C7 witness. -/
def exImage : ImageF := fun _ _ _ => 7

/-- A replace-background configuration (green screen) for the C7 witness. -/
def exCfgReplace : FilterConfigState :=
  { threshold := 1/2, blur_background := false, blur_amount := 15,
    replace_background := true, replacement_color := 0xFF00FF00,
    smooth_edges := true, edge_smoothing := 3 }

/-- A blur-background configuration for the C7 witness. -/
def exCfgBlur : FilterConfigState :=
  { threshold := 1/2, blur_background := true, blur_amount := 15,
    replace_background := false, replacement_color := 0,
    smooth_edges := true, edge_smoothing := 3 }

/-- A second constant test image standing for the blurred copy. -/
def exImageBlur : ImageF := fun _ _ _ => 3

/-- Witness for C7 on concrete images, masks and configurations. -/
theorem composite_mask_extremes_witness :
    compositeFrame exCfgReplace exImage exImageBlur (fun _ _ => 1) = exImage ∧
    (compositeFrame exCfgReplace exImage exImageBlur (fun _ _ => 0) =
      fun _ _ => bgColorOf 0xFF00FF00) ∧
    compositeFrame exCfgBlur exImage exImageBlur (fun _ _ => 0) = exImageBlur :=
  ⟨(composite_mask_extremes exCfgReplace exImage exImageBlur
      (fun _ _ => 1) (fun _ _ => 0) (fun _ _ => rfl) (fun _ _ => rfl)).1,
   (composite_mask_extremes exCfgReplace exImage exImageBlur
      (fun _ _ => 1) (fun _ _ => 0) (fun _ _ => rfl) (fun _ _ => rfl)).2.1 rfl,
   (composite_mask_extremes exCfgBlur exImage exImageBlur
      (fun _ _ => 1) (fun _ _ => 0) (fun _ _ => rfl) (fun _ _ => rfl)).2.2 rfl rfl⟩

/-- The sigmoid output is strictly positive. -/
theorem sigmoid_pos (x : ℝ) : 0 < sigmoid x := by
  unfold sigmoid
  positivity

/-- The sigmoid output is strictly below one. -/
theorem sigmoid_lt_one (x : ℝ) : sigmoid x < 1 := by
  unfold sigmoid
  rw [div_lt_one (by positivity)]
  linarith [Real.exp_pos (-x)]

/-- Numeric bounds on exp 2 derived from the Mathlib bounds on exp 1. -/
theorem exp_two_bounds : 7.389 < Real.exp 2 ∧ Real.exp 2 < 7.3891 := by
  have h2 : Real.exp 2 = Real.exp 1 * Real.exp 1 := by
    rw [← Real.exp_add]; norm_num
  have hl := Real.exp_one_gt_d9
  have hu := Real.exp_one_lt_d9
  constructor <;> rw [h2] <;> nlinarith

/-- Numeric bounds on sigmoid 2 (approximately 0.8808). -/
theorem sigmoid_two_bounds : 0.8807 < sigmoid 2 ∧ sigmoid 2 < 0.8809 := by
  obtain ⟨hl, hu⟩ := exp_two_bounds
  have hpos := Real.exp_pos (2 : ℝ)
  have hneg : Real.exp (-(2:ℝ)) = (Real.exp 2)⁻¹ := Real.exp_neg 2
  have hinv_l : (Real.exp 2)⁻¹ < 0.13534 := by
    rw [← one_div, div_lt_iff hpos]; nlinarith
  have hinv_u : (0.1353 : ℝ) < (Real.exp 2)⁻¹ := by
    rw [← one_div, lt_div_iff hpos]; nlinarith
  constructor
  · unfold sigmoid
    rw [lt_div_iff (by positivity), hneg]
    nlinarith
  · unfold sigmoid
    rw [div_lt_iff (by positivity), hneg]
    nlinarith

/-- sigmoid(-2) (approximately 0.1192) is at most the threshold 0.3. -/
theorem sigmoid_neg_two_le : sigmoid (-2) ≤ 3/10 := by
  obtain ⟨hl, hu⟩ := exp_two_bounds
  unfold sigmoid
  rw [div_le_iff (by positivity), neg_neg]
  nlinarith

/-- Claim C5: each raw value is mapped to sigmoid(x) in (0,1), then
zeroed when at most the threshold and kept unchanged when above it (a
soft mask); at threshold 0.3 the logit 2.0 is retained with value
sigmoid 2 which is approximately 0.8808, and the logit -2.0 yields 0. -/
theorem postprocess_sigmoid_threshold :
    (∀ x : ℝ, 0 < sigmoid x ∧ sigmoid x < 1) ∧
    (∀ t x : ℝ, (sigmoid x ≤ t → postprocessValue t x = 0) ∧
      (t < sigmoid x → postprocessValue t x = sigmoid x)) ∧
    postprocessValue (3/10) 2 = sigmoid 2 ∧
    (0.8807 < sigmoid 2 ∧ sigmoid 2 < 0.8809) ∧
    postprocessValue (3/10) (-2) = 0 := by
  have hgen : ∀ t x : ℝ, (sigmoid x ≤ t → postprocessValue t x = 0) ∧
      (t < sigmoid x → postprocessValue t x = sigmoid x) := by
    intro t x
    constructor
    · intro h
      unfold postprocessValue thresholdStep
      rw [if_neg (not_lt.mpr h)]
    · intro h
      unfold postprocessValue thresholdStep
      rw [if_pos h]
  refine ⟨fun x => ⟨sigmoid_pos x, sigmoid_lt_one x⟩, hgen, ?_,
    sigmoid_two_bounds, ?_⟩
  · exact (hgen (3/10) 2).2 (lt_trans (by norm_num) sigmoid_two_bounds.1)
  · exact (hgen (3/10) (-2)).1 sigmoid_neg_two_le

/-- Witness for C5: at threshold 1 the logit 0 is zeroed, since
sigmoid 0 = 1/2 is at most 1. -/
theorem postprocess_sigmoid_threshold_witness : postprocessValue 1 0 = 0 :=
  (postprocess_sigmoid_threshold.2.1 1 0).1
    (by norm_num [sigmoid, Real.exp_zero])

/-- A bilinear combination with weights in [0,1] of four values in [0,1]
stays in [0,1]. -/
theorem convex4_mem (wy wx a b c d : ℝ)
    (hwy0 : 0 ≤ wy) (hwy1 : wy ≤ 1) (hwx0 : 0 ≤ wx) (hwx1 : wx ≤ 1)
    (ha0 : 0 ≤ a) (ha1 : a ≤ 1) (hb0 : 0 ≤ b) (hb1 : b ≤ 1)
    (hc0 : 0 ≤ c) (hc1 : c ≤ 1) (hd0 : 0 ≤ d) (hd1 : d ≤ 1) :
    0 ≤ (1 - wy) * (1 - wx) * a + (1 - wy) * wx * b +
        wy * (1 - wx) * c + wy * wx * d ∧
    (1 - wy) * (1 - wx) * a + (1 - wy) * wx * b +
        wy * (1 - wx) * c + wy * wx * d ≤ 1 := by
  have k1 : 0 ≤ (1 - wy) * (1 - wx) := mul_nonneg (by linarith) (by linarith)
  have k2 : 0 ≤ (1 - wy) * wx := mul_nonneg (by linarith) hwx0
  have k3 : 0 ≤ wy * (1 - wx) := mul_nonneg hwy0 (by linarith)
  have k4 : 0 ≤ wy * wx := mul_nonneg hwy0 hwx0
  constructor
  · have t1 := mul_nonneg k1 ha0
    have t2 := mul_nonneg k2 hb0
    have t3 := mul_nonneg k3 hc0
    have t4 := mul_nonneg k4 hd0
    linarith
  · have e : (1 - wy) * (1 - wx) + (1 - wy) * wx + wy * (1 - wx) + wy * wx = 1 := by
      ring
    have t1 := mul_le_of_le_one_right k1 ha1
    have t2 := mul_le_of_le_one_right k2 hb1
    have t3 := mul_le_of_le_one_right k3 hc1
    have t4 := mul_le_of_le_one_right k4 hd1
    linarith

/-- Bilinear resizing preserves the [0,1] range of the source. -/
theorem resizeBilinear_mem (src : Nat → Nat → ℝ) (srcH srcW dstH dstW : Nat)
    (hsrc : ∀ i j, 0 ≤ src i j ∧ src i j ≤ 1) (y x : Nat) :
    0 ≤ resizeBilinear src srcH srcW dstH dstW y x ∧
    resizeBilinear src srcH srcW dstH dstW y x ≤ 1 := by
  unfold resizeBilinear
  dsimp only
  push_cast
  exact convex4_mem _ _ _ _ _ _
    (Int.fract_nonneg _) (le_of_lt (Int.fract_lt_one _))
    (Int.fract_nonneg _) (le_of_lt (Int.fract_lt_one _))
    (hsrc _ _).1 (hsrc _ _).2 (hsrc _ _).1 (hsrc _ _).2
    (hsrc _ _).1 (hsrc _ _).2 (hsrc _ _).1 (hsrc _ _).2

/-- Every value produced by sigmoid-plus-threshold lies in [0,1]. -/
theorem thresholdStep_sigmoid_mem (t x : ℝ) :
    0 ≤ thresholdStep t (sigmoid x) ∧ thresholdStep t (sigmoid x) ≤ 1 := by
  unfold thresholdStep
  split_ifs with h
  · exact ⟨le_of_lt (sigmoid_pos x), le_of_lt (sigmoid_lt_one x)⟩
  · norm_num

/-- Claim C9: the postprocessed mask has exactly the target (frame)
dimensions; all its values lie in [0,1] (the sigmoid-threshold values do
and linear resizing preserves the range); and the optional edge-smoothing
blur with any normalized nonnegative kernel also preserves [0,1]. -/
theorem postprocess_mask_invariants (output_data : Nat → Nat → ℝ)
    (output_height output_width target_height target_width : Nat) (t : ℝ)
    (g : Nat → ℝ) (ksize H W : Nat) (src : Nat → Nat → ℝ)
    (hg : ∀ i, 0 ≤ g i) (hgsum : ∑ i ∈ Finset.range ksize, g i = 1)
    (hsrc : ∀ y x, 0 ≤ src y x ∧ src y x ≤ 1) :
    ((Postprocess output_data output_height output_width
        target_height target_width t).rows = target_height ∧
     (Postprocess output_data output_height output_width
        target_height target_width t).cols = target_width) ∧
    (∀ y x, 0 ≤ (Postprocess output_data output_height output_width
        target_height target_width t).val y x ∧
      (Postprocess output_data output_height output_width
        target_height target_width t).val y x ≤ 1) ∧
    (∀ y x, 0 ≤ gaussianBlur g ksize H W src y x ∧
      gaussianBlur g ksize H W src y x ≤ 1) := by
  refine ⟨⟨rfl, rfl⟩, ?_, ?_⟩
  · intro y x
    exact resizeBilinear_mem _ output_height output_width
      target_height target_width
      (fun i j => thresholdStep_sigmoid_mem t (output_data i j)) y x
  · intro y x
    unfold gaussianBlur
    constructor
    · apply Finset.sum_nonneg
      intro i _
      apply Finset.sum_nonneg
      intro j _
      exact mul_nonneg (mul_nonneg (hg i) (hg j)) (hsrc _ _).1
    · have h2 : (∑ i ∈ Finset.range ksize, ∑ j ∈ Finset.range ksize,
          g i * g j) = 1 := by
        rw [← Finset.sum_mul_sum, hgsum, one_mul]
      refine le_trans (Finset.sum_le_sum ?_) (le_of_eq h2)
      intro i _
      refine Finset.sum_le_sum ?_
      intro j _
      exact mul_le_of_le_one_right (mul_nonneg (hg i) (hg j)) (hsrc _ _).2

/-- Witness for C9 with the trivial one-point kernel, an all-zero source
mask and concrete dimensions. -/
theorem postprocess_mask_invariants_witness :
    (Postprocess (fun _ _ => 0) 2 2 4 4 (1/2)).rows = 4 ∧
    0 ≤ gaussianBlur (fun _ => 1) 1 4 4 (fun _ _ => 0) 0 0 ∧
    gaussianBlur (fun _ => 1) 1 4 4 (fun _ _ => 0) 0 0 ≤ 1 :=
  have h := postprocess_mask_invariants (fun _ _ => 0) 2 2 4 4 (1/2)
    (fun _ => 1) 1 4 4 (fun _ _ => 0)
    (fun _ => zero_le_one) (by simp) (fun _ _ => ⟨le_refl 0, zero_le_one⟩)
  ⟨h.1.1, (h.2.2 0 0).1, (h.2.2 0 0).2⟩

/-- The host pixel formats the filter inspects; every other format takes
the unsupported branch. -/
inductive VideoFormat where
  | I420
  | NV12
  | RGBA
  | other (tag : Nat)
deriving DecidableEq

/-- An incoming obs_source_frame: format tag, dimensions and the raw
bytes of its data plane. -/
structure OBSFrame where
  format : VideoFormat
  width : Nat
  height : Nat
  data : List Nat
deriving DecidableEq

/-- The per-instance mutable fields of background_filter_data touched by
background_filter_video. -/
structure VideoRunState where
  model_loaded : Bool
  processing : Bool
  width : Nat
  height : Nat
deriving DecidableEq

/-- The three formats with a conversion branch in the source. -/
def supportedFormat : VideoFormat → Bool
  | .I420 => true
  | .NV12 => true
  | .RGBA => true
  | .other _ => false

/-- background_filter_video from src/background-filter.cpp, sequentially
(the mutex and the transient processing=true window collapse in the
single-threaded semantics: the flag is reset to false on every exit path
of the body).  `runInference` models ModelInference::RunInference
(returning none on failure), and `render` models the mask smoothing,
compositing and format conversion that overwrite the frame's data plane
on success.  Pass-through paths return the frame untouched; the cached
width/height are refreshed before the format dispatch, exactly as in the
source. -/
def background_filter_video (st : VideoRunState)
    (runInference : OBSFrame → Option (Nat → Nat → ℝ))
    (render : OBSFrame → (Nat → Nat → ℝ) → List Nat)
    (frame : OBSFrame) : VideoRunState × OBSFrame :=
  if !st.model_loaded || st.processing then (st, frame)
  else
    let st1 := if st.width != frame.width || st.height != frame.height then
        { st with width := frame.width, height := frame.height }
      else st
    if !supportedFormat frame.format then (st1, frame)
    else
      match runInference frame with
      | none => (st1, frame)
      | some mask => (st1, { frame with data := render frame mask })

/-- The two pass-through exits of background_filter_video (unsupported
format, inference failure) leave the frame untouched and only refresh the
cached dimensions. -/
theorem bfv_pass (st : VideoRunState)
    (ri : OBSFrame → Option (Nat → Nat → ℝ))
    (re : OBSFrame → (Nat → Nat → ℝ) → List Nat) (frame : OBSFrame)
    (hl : st.model_loaded = true) (hp : st.processing = false)
    (hfail : supportedFormat frame.format = false ∨ ri frame = none) :
    background_filter_video st ri re frame =
      ({ model_loaded := st.model_loaded, processing := st.processing,
         width := frame.width, height := frame.height }, frame) := by
  rcases hfail with h | h
  · simp [background_filter_video, hl, hp, h]
    intro h1 h2
    rw [← hl, ← hp, ← h1, ← h2]
  · by_cases hsup : supportedFormat frame.format
    · simp [background_filter_video, hl, hp, h, hsup]
      intro h1 h2
      rw [← hl, ← hp, ← h1, ← h2]
    · rw [Bool.not_eq_true] at hsup
      simp [background_filter_video, hl, hp, hsup]
      intro h1 h2
      rw [← hl, ← hp, ← h1, ← h2]

/-- The success path of background_filter_video: the frame's data plane
is overwritten with the rendered composite. -/
theorem bfv_ok (st : VideoRunState)
    (ri : OBSFrame → Option (Nat → Nat → ℝ))
    (re : OBSFrame → (Nat → Nat → ℝ) → List Nat) (frame : OBSFrame)
    (mask : Nat → Nat → ℝ)
    (hl : st.model_loaded = true) (hp : st.processing = false)
    (hsup : supportedFormat frame.format = true) (hm : ri frame = some mask) :
    background_filter_video st ri re frame =
      ({ model_loaded := st.model_loaded, processing := st.processing,
         width := frame.width, height := frame.height },
       { frame with data := re frame mask }) := by
  simp [background_filter_video, hl, hp, hsup, hm]
  intro h1 h2
  rw [← hl, ← hp, ← h1, ← h2]

/-- Claim C8 (amended): on an unsupported pixel format or an inference
failure the frame is returned byte-identical and the filter state is
unchanged except for the cached width/height fields, which take the
incoming frame's dimensions; a subsequent supported frame with a
successful inference is still processed normally. -/
theorem video_passthrough (st : VideoRunState)
    (runInference : OBSFrame → Option (Nat → Nat → ℝ))
    (render : OBSFrame → (Nat → Nat → ℝ) → List Nat)
    (frame : OBSFrame)
    (hload : st.model_loaded = true) (hproc : st.processing = false)
    (hfail : supportedFormat frame.format = false ∨ runInference frame = none) :
    (background_filter_video st runInference render frame).2 = frame ∧
    (background_filter_video st runInference render frame).1 =
      { model_loaded := st.model_loaded, processing := st.processing,
        width := frame.width, height := frame.height } ∧
    (∀ frame2 mask2, supportedFormat frame2.format = true →
      runInference frame2 = some mask2 →
      (background_filter_video
          (background_filter_video st runInference render frame).1
          runInference render frame2).2 =
        { frame2 with data := render frame2 mask2 }) := by
  rw [bfv_pass st runInference render frame hload hproc hfail]
  refine ⟨rfl, rfl, ?_⟩
  intro frame2 mask2 hsup2 hinf2
  rw [bfv_ok
    { model_loaded := st.model_loaded, processing := st.processing,
      width := frame.width, height := frame.height }
    runInference render frame2 mask2 hload hproc hsup2 hinf2]

/-- A freshly created filter state (model loaded, nothing processed yet,
no cached dimensions). -/
def exVideoState : VideoRunState :=
  { model_loaded := true, processing := false, width := 0, height := 0 }

/-- A 4x4 frame in an unsupported pixel format. -/
def exBadFrame : OBSFrame :=
  { format := .other 0, width := 4, height := 4, data := [1, 2, 3] }

/-- A 4x4 RGBA frame. -/
def exGoodFrame : OBSFrame :=
  { format := .RGBA, width := 4, height := 4, data := [1, 2, 3] }

/-- An inference engine that always succeeds with an all-ones mask. -/
def exRIGood : OBSFrame → Option (Nat → Nat → ℝ) :=
  fun _ => some (fun _ _ => 1)

/-- A renderer producing a fixed data plane. -/
def exRender : OBSFrame → (Nat → Nat → ℝ) → List Nat := fun _ _ => [9]

/-- Counterexample to C8 as stated: the unsupported 4x4 frame is returned
byte-identical, but the filter state does change — the cached
width/height fields are refreshed before the format check. -/
theorem video_passthrough_counterexample :
    (background_filter_video exVideoState exRIGood exRender exBadFrame).2
      = exBadFrame ∧
    (background_filter_video exVideoState exRIGood exRender exBadFrame).1
      ≠ exVideoState := by
  constructor
  · decide
  · decide

/-- Witness for C8: the unsupported frame passes through, and the next
supported frame is still processed (its data plane is rewritten). -/
theorem video_passthrough_witness :
    (background_filter_video exVideoState exRIGood exRender exBadFrame).2
      = exBadFrame ∧
    (background_filter_video
        (background_filter_video exVideoState exRIGood exRender exBadFrame).1
        exRIGood exRender exGoodFrame).2 = { exGoodFrame with data := [9] } :=
  have h := video_passthrough exVideoState exRIGood exRender exBadFrame
    rfl rfl (Or.inl rfl)
  ⟨h.1, h.2.2 exGoodFrame (fun _ _ => 1) rfl rfl⟩
